import Mathlib

/-!
# Verification of the Loomotype segment-splice timeline composer

Shallow embedding of the plan-building logic of the Loomotype video
personalization pipeline:

* `VideoComposer.compose` (src/compose/composer.py) — the single-track
  splicer that interleaves pass-through extracts of the original video
  with processed (lip-synced) segments;
* the dual-recording branch of `process_full_personalization`
  (src/api/server.py, lines 2555–2678) — the dual-track synchronizer
  that builds matching camera and screen concatenation lists;
* the fps reconciliation of `FFmpegProcessor.overlay_camera_bubble`
  (src/core/ffmpeg_utils.py, lines 1156–1167);
* the loudness clamp of `process_full_personalization`
  (src/api/server.py, lines 2251–2259);
* the duration validation of `FFmpegProcessor.extract_segment`
  (src/core/ffmpeg_utils.py, lines 168–171).

Times and durations are modelled as rationals (`ℚ`); the Python code uses
floats, but every branch condition in the modelled code is an order
comparison, so `ℚ` captures the control flow exactly.  File-system state
(whether a clip file exists) is modelled as a boolean field on the
segment records, since the plan-building code only ever reads it to log.
-/

/-- Mirror of `ProcessedSegment` (src/compose/composer.py, lines 24–30):
a processed (lip-synced) clip replacing a window of the original video.
`end_time` is the end of the processed clip on the timeline starting at
`start_time`, so the clip's own duration is `end_time - start_time`.
`original_end_time` is the optional point of the *original* timeline at
which to resume.  `clipExists` models `video_path.exists()`; the composer
reads it only to log (composer.py, lines 117–120). -/
structure ProcessedSegment where
  start_time : ℚ
  end_time : ℚ
  original_end_time : Option ℚ
  clipExists : Bool
deriving DecidableEq

/-- One entry of a concatenation list: a verbatim extract of
`[s, e)` from an original track, a processed replacement clip of the
given duration, or an extract time-stretched to `target` seconds
(the screen-edit path of server.py, lines 2610–2638). -/
inductive ClipRef where
  | passThrough (s e : ℚ)
  | replacement (dur : ℚ)
  | timeAdjusted (s e target : ℚ)
deriving DecidableEq

/-- Nominal duration of a concatenation-list entry. -/
def ClipRef.nominalDuration : ClipRef → ℚ
  | .passThrough s e => e - s
  | .replacement d => d
  | .timeAdjusted _ _ t => t

/-- Total nominal duration of a concatenation list. -/
def planDuration (plan : List ClipRef) : ℚ :=
  (plan.map ClipRef.nominalDuration).sum

/-- `resume_from = seg.original_end_time if seg.original_end_time else
seg.end_time` (composer.py, line 124).  Python truthiness: both `None`
and `0.0` fall back to `end_time`. -/
def resumeFrom (seg : ProcessedSegment) : ℚ :=
  match seg.original_end_time with
  | none => seg.end_time
  | some oe => if oe = 0 then seg.end_time else oe

/-- Stable insertion into a list sorted by `key` (ties keep the incoming
element first, matching the stability of Python's `sorted`). -/
def insertByKey (key : α → ℚ) (a : α) : List α → List α
  | [] => [a]
  | b :: rest =>
      if key a ≤ key b then a :: b :: rest else b :: insertByKey key a rest

/-- `sorted(processed_segments, key=lambda s: s.start_time)`
(composer.py, line 93; server.py, line 2555), as a stable insertion
sort. -/
def sortByKey (key : α → ℚ) : List α → List α
  | [] => []
  | a :: rest => insertByKey key a (sortByKey key rest)

/-- The cursor walk of `VideoComposer.compose` (composer.py, lines
96–137): for each segment, emit the gap `[cursor, start)` from the
original when `cursor < start_time`, then the processed clip, then
resume from `resumeFrom seg`; after the loop emit the trailing
`[cursor, total)` extract when `cursor < total`. -/
def buildPlanAux (total : ℚ) (cursor : ℚ) : List ProcessedSegment → List ClipRef
  | [] => if cursor < total then [ClipRef.passThrough cursor total] else []
  | seg :: rest =>
      (if cursor < seg.start_time then [ClipRef.passThrough cursor seg.start_time] else [])
      ++ ClipRef.replacement (seg.end_time - seg.start_time)
        :: buildPlanAux total (resumeFrom seg) rest

/-- The concatenation list built by `VideoComposer.compose`
(composer.py, lines 87–137).  An empty segment list makes `compose`
copy the original file verbatim (line 87–90), modelled as a single
whole-range pass-through; otherwise the segments are sorted by
`start_time` and walked with the cursor. -/
def buildPlan (total : ℚ) (segs : List ProcessedSegment) : List ClipRef :=
  match segs with
  | [] => [ClipRef.passThrough 0 total]
  | _ => buildPlanAux total 0 (sortByKey ProcessedSegment.start_time segs)

/-- The original window's end: `original_end_time` when present,
`end_time` otherwise — used to state drift. -/
def windowEnd (seg : ProcessedSegment) : ℚ :=
  seg.original_end_time.getD seg.end_time

/-- Σ over segments of `newDuration - original window length`, where the
replacement clip's duration is `end_time - start_time` and the window is
`[start_time, windowEnd)`. -/
def totalDrift : List ProcessedSegment → ℚ
  | [] => 0
  | seg :: rest =>
      ((seg.end_time - seg.start_time) - (windowEnd seg - seg.start_time)) + totalDrift rest

/-- The well-formedness the spec's §3 demands of a unit list, phrased as
the walk's chain invariant: each segment carries an original window
`[start_time, windowEnd)` — so `original_end_time` is present — with
`start_time < windowEnd`, each window starts at or after the cursor
(sortedness plus pairwise disjointness), and the last window ends within
the original duration. -/
def chainOK (total : ℚ) (cursor : ℚ) : List ProcessedSegment → Prop
  | [] => cursor ≤ total
  | seg :: rest =>
      cursor ≤ seg.start_time ∧
      seg.original_end_time = some (windowEnd seg) ∧
      seg.start_time < windowEnd seg ∧
      chainOK total (windowEnd seg) rest

/-- One entry of the `processed_segments` dict list consumed by the
dual-recording branch of `process_full_personalization` (server.py,
lines 2525–2535 build them with `original_end_time` always present).
`clipExists` models whether `video_path` exists on disk; the
dual-recording branch never reads it (line 2729 logs it only in the
single-recording branch). -/
structure CamSegment where
  start_time : ℚ
  end_time : ℚ
  original_end_time : ℚ
  clipExists : Bool
deriving DecidableEq

/-- The screen-track entry for an edited window (server.py, lines
2606–2647): when `|new_duration - orig_duration| > 0.1` the original
screen window `[orig_start, orig_end)` is extracted and time-stretched
to the lip-synced clip's `new_duration`; otherwise it is extracted
as-is. -/
def screenEditEntry (seg : CamSegment) : ClipRef :=
  let newDur := seg.end_time - seg.start_time
  let origDur := seg.original_end_time - seg.start_time
  if 1/10 < |newDur - origDur| then
    ClipRef.timeAdjusted seg.start_time seg.original_end_time newDur
  else
    ClipRef.passThrough seg.start_time seg.original_end_time

/-- The paired walk of the dual-recording branch (server.py, lines
2562–2678), returning `(camera_segments_to_concat,
screen_segments_to_concat)`.  Per segment: when `orig_start > prev_end`
both tracks get the identical gap extract `[prev_end, orig_start)`
(lines 2574–2600); the camera track gets the lip-synced clip (line
2603), the screen track gets `screenEditEntry` (lines 2606–2649);
`prev_end` advances to `orig_end` (line 2652).  After the loop, when
`prev_end < info.duration` (the *screen* duration, line 2655) the
camera track gets `[prev_end, camera_info.duration)` and the screen
track `[prev_end, info.duration)` (lines 2658–2678). -/
def buildDualAux (screenDur camDur : ℚ) (prevEnd : ℚ) :
    List CamSegment → List ClipRef × List ClipRef
  | [] =>
      if prevEnd < screenDur then
        ([ClipRef.passThrough prevEnd camDur], [ClipRef.passThrough prevEnd screenDur])
      else ([], [])
  | seg :: rest =>
      let gap : List ClipRef :=
        if prevEnd < seg.start_time then [ClipRef.passThrough prevEnd seg.start_time] else []
      let tail := buildDualAux screenDur camDur seg.original_end_time rest
      (gap ++ ClipRef.replacement (seg.end_time - seg.start_time) :: tail.1,
       gap ++ screenEditEntry seg :: tail.2)

/-- The dual-recording composition: sort by `start_time` (server.py,
line 2555) and run the paired walk from `prev_end = 0.0` (line 2562). -/
def buildDualPlan (screenDur camDur : ℚ) (segs : List CamSegment) :
    List ClipRef × List ClipRef :=
  buildDualAux screenDur camDur 0 (sortByKey CamSegment.start_time segs)

set_option linter.unusedVariables false in
/-- The fps reconciliation of `FFmpegProcessor.overlay_camera_bubble`
(ffmpeg_utils.py, lines 1152–1167 and 1219–1223): both input fps values
are probed (the camera's on lines 1153–1154), `raw_fps = screen_info.fps
or 30` (Python truthiness: a reported `0.0` falls back to 30), the
target is 30 when `raw_fps > 60` or `raw_fps < 15` and `raw_fps`
otherwise, and the filter graph applies `fps=target` to both tracks;
the camera's reported fps never influences the target. -/
def reconcileFps (screenFps camFps : ℚ) : ℚ :=
  let rawFps := if screenFps = 0 then 30 else screenFps
  if 60 < rawFps then 30
  else if rawFps < 15 then 30
  else rawFps

/-- A Python float as the loudness-clamp code distinguishes values:
`math.isinf` is true exactly for the two infinities (not for NaN), and
every comparison with NaN is false. -/
inductive FloatVal where
  | nan
  | posInf
  | negInf
  | finite (q : ℚ)
deriving DecidableEq

/-- `math.isinf` (server.py, line 2254). -/
def FloatVal.isinf : FloatVal → Bool
  | .posInf => true
  | .negInf => true
  | _ => false

/-- Python `x < c` for a float `x` and finite literal `c`: false for
NaN, true for `-inf`, false for `+inf`. -/
def FloatVal.lt : FloatVal → ℚ → Bool
  | .nan, _ => false
  | .posInf, _ => false
  | .negInf, _ => true
  | .finite q, c => decide (q < c)

/-- Python `x > c` for a float `x` and finite literal `c`. -/
def FloatVal.gt : FloatVal → ℚ → Bool
  | .nan, _ => false
  | .posInf, _ => true
  | .negInf, _ => false
  | .finite q, c => decide (c < q)

/-- The loudness clamp of `process_full_personalization` (server.py,
lines 2251–2259): `-23.0` when `math.isinf(L) or L < -70`, `-5.0` when
`L > -5`, otherwise `L` unchanged. -/
def clampLoudness (L : FloatVal) : FloatVal :=
  if L.isinf || L.lt (-70) then .finite (-23)
  else if L.gt (-5) then .finite (-5)
  else L

/-- A Python exception raised by the modelled Media-Toolkit wrappers. -/
inductive PyError where
  | valueError
deriving DecidableEq

/-- A request to run ffmpeg to extract `[start, start + dur)`,
re-encoding or stream-copying — the media operation that
`extract_segment` issues on its success path. -/
structure FFmpegCall where
  start : ℚ
  dur : ℚ
  reencode : Bool
deriving DecidableEq

/-- `FFmpegProcessor.extract_segment` (ffmpeg_utils.py, lines 147–205):
`duration = end_time - start_time`; when `duration <= 0` a `ValueError`
is raised before any ffmpeg invocation; otherwise the ffmpeg call with
`-ss start_time -t duration` is issued. -/
def extract_segment (start_time end_time : ℚ) (reencode : Bool) :
    Except PyError FFmpegCall :=
  let duration := end_time - start_time
  if duration ≤ 0 then .error .valueError
  else .ok ⟨start_time, duration, reencode⟩

/-- The per-index relation of the dual-track invariant: the camera and
screen entries at the same position have nominal durations within the
code's 0.1-second stretch threshold, and exactly equal whenever the
screen entry is a time-adjusted extract. -/
def pairOk (a b : ClipRef) : Prop :=
  |a.nominalDuration - b.nominalDuration| ≤ 1/10 ∧
  (∀ s e t, b = ClipRef.timeAdjusted s e t → a.nominalDuration = b.nominalDuration)

/-- Rewrite a segment's `clipExists` flag (the modelled file-system
state of its replacement clip), leaving the timing fields unchanged. -/
def setFlag (f : CamSegment → Bool) (s : CamSegment) : CamSegment :=
  { s with clipExists := f s }

/-- The target loudness is a finite value inside FFmpeg's valid
loudnorm range of [-70, -5] LUFS. -/
def inLUFSRange : FloatVal → Prop
  | .finite q => -70 ≤ q ∧ q ≤ -5
  | _ => False

/-! ## Helper lemmas -/

theorem planDuration_cons (x : ClipRef) (l : List ClipRef) :
    planDuration (x :: l) = x.nominalDuration + planDuration l := by
  simp [planDuration]

theorem planDuration_append (a b : List ClipRef) :
    planDuration (a ++ b) = planDuration a + planDuration b := by
  simp [planDuration]

theorem sortByKey_of_chain (key : α → ℚ) :
    ∀ l : List α, l.Chain' (fun a b => key a ≤ key b) → sortByKey key l = l := by
  intro l
  induction l with
  | nil => intro _; rfl
  | cons a rest ih =>
    intro h
    rw [sortByKey, ih h.tail]
    cases rest with
    | nil => rfl
    | cons b t =>
      have hab : key a ≤ key b := (List.chain'_cons.mp h).1
      simp [insertByKey, hab]

theorem resumeFrom_eq_windowEnd (seg : ProcessedSegment)
    (h : seg.original_end_time = some (windowEnd seg)) (hne : windowEnd seg ≠ 0) :
    resumeFrom seg = windowEnd seg := by
  unfold resumeFrom
  rw [h]
  simp [hne]

theorem chainOK_starts (total : ℚ) :
    ∀ (segs : List ProcessedSegment) (c : ℚ), chainOK total c segs →
      segs.Chain' (fun a b => a.start_time ≤ b.start_time) := by
  intro segs
  induction segs with
  | nil => intro _ _; exact List.chain'_nil
  | cons seg rest ih =>
    intro c h
    simp only [chainOK] at h
    obtain ⟨h1, h2, h3, h4⟩ := h
    have tail := ih _ h4
    cases rest with
    | nil => simp
    | cons b t =>
      refine List.chain'_cons.mpr ⟨?_, tail⟩
      have hb : windowEnd seg ≤ b.start_time := by
        simp only [chainOK] at h4
        exact h4.1
      exact le_trans h3.le hb

theorem buildPlanAux_duration (total : ℚ) :
    ∀ (segs : List ProcessedSegment) (c : ℚ), 0 ≤ c → chainOK total c segs →
      planDuration (buildPlanAux total c segs) = (total - c) + totalDrift segs := by
  intro segs
  induction segs with
  | nil =>
    intro c h0 hc
    simp only [chainOK] at hc
    by_cases h : c < total
    · simp [buildPlanAux, h, planDuration, ClipRef.nominalDuration, totalDrift]
    · have hct : c = total := le_antisymm hc (not_lt.mp h)
      simp [buildPlanAux, h, planDuration, totalDrift, hct]
  | cons seg rest ih =>
    intro c h0 hc
    simp only [chainOK] at hc
    obtain ⟨h1, h2, h3, h4⟩ := hc
    have hwpos : 0 < windowEnd seg := lt_of_le_of_lt (le_trans h0 h1) h3
    have hres : resumeFrom seg = windowEnd seg :=
      resumeFrom_eq_windowEnd seg h2 (ne_of_gt hwpos)
    rw [buildPlanAux, planDuration_append, planDuration_cons, hres,
      ih (windowEnd seg) hwpos.le h4]
    by_cases h : c < seg.start_time
    · rw [if_pos h]
      simp only [planDuration, List.map_cons, List.map_nil, List.sum_cons, List.sum_nil,
        ClipRef.nominalDuration, totalDrift]
      ring
    · have hcs : c = seg.start_time := le_antisymm h1 (not_lt.mp h)
      subst hcs
      rw [if_neg h]
      simp only [planDuration, List.map_nil, List.sum_nil, ClipRef.nominalDuration, totalDrift]
      ring

theorem buildPlanAux_pos (total : ℚ) :
    ∀ (segs : List ProcessedSegment) (c : ℚ), 0 ≤ c → chainOK total c segs →
      (∀ s ∈ segs, s.start_time < s.end_time) →
      ∀ e ∈ buildPlanAux total c segs, 0 < e.nominalDuration := by
  intro segs
  induction segs with
  | nil =>
    intro c h0 hc hpos e he
    simp only [buildPlanAux] at he
    by_cases h : c < total
    · simp [h] at he
      subst he
      simpa [ClipRef.nominalDuration] using sub_pos.mpr h
    · simp [h] at he
  | cons seg rest ih =>
    intro c h0 hc hpos e he
    simp only [chainOK] at hc
    obtain ⟨h1, h2, h3, h4⟩ := hc
    have hwpos : 0 < windowEnd seg := lt_of_le_of_lt (le_trans h0 h1) h3
    have hres : resumeFrom seg = windowEnd seg :=
      resumeFrom_eq_windowEnd seg h2 (ne_of_gt hwpos)
    rw [buildPlanAux] at he
    rcases List.mem_append.mp he with hgap | htail
    · by_cases h : c < seg.start_time
      · simp [h] at hgap
        subst hgap
        simpa [ClipRef.nominalDuration] using sub_pos.mpr h
      · simp [h] at hgap
    · rcases List.mem_cons.mp htail with hrepl | hrest
      · subst hrepl
        simpa [ClipRef.nominalDuration] using
          sub_pos.mpr (hpos seg (List.mem_cons_self ..))
      · rw [hres] at hrest
        exact ih (windowEnd seg) hwpos.le h4
          (fun s hs => hpos s (List.mem_cons_of_mem _ hs)) e hrest

theorem pairOk_refl_pass (s e : ℚ) :
    pairOk (ClipRef.passThrough s e) (ClipRef.passThrough s e) := by
  refine ⟨by simp, ?_⟩
  intro s' e' t' ht
  exact ClipRef.noConfusion ht

theorem pairOk_unit (seg : CamSegment) :
    pairOk (ClipRef.replacement (seg.end_time - seg.start_time)) (screenEditEntry seg) := by
  unfold screenEditEntry pairOk
  by_cases hd : 1/10 <
      |(seg.end_time - seg.start_time) - (seg.original_end_time - seg.start_time)|
  · rw [if_pos hd]
    exact ⟨by simp [ClipRef.nominalDuration], fun s' e' t' _ => by
      simp [ClipRef.nominalDuration]⟩
  · rw [if_neg hd]
    refine ⟨?_, fun s' e' t' ht => ClipRef.noConfusion ht⟩
    simpa [ClipRef.nominalDuration] using not_lt.mp hd

theorem buildDualAux_forall₂ (d : ℚ) :
    ∀ (segs : List CamSegment) (p : ℚ),
      List.Forall₂ pairOk (buildDualAux d d p segs).1 (buildDualAux d d p segs).2 := by
  intro segs
  induction segs with
  | nil =>
    intro p
    by_cases h : p < d
    · simp only [buildDualAux, if_pos h]
      exact List.Forall₂.cons (pairOk_refl_pass p d) List.Forall₂.nil
    · simp only [buildDualAux, if_neg h]
      exact List.Forall₂.nil
  | cons seg rest ih =>
    intro p
    by_cases h : p < seg.start_time
    · simp only [buildDualAux, if_pos h, List.singleton_append]
      exact List.Forall₂.cons (pairOk_refl_pass p seg.start_time)
        (List.Forall₂.cons (pairOk_unit seg) (ih seg.original_end_time))
    · simp only [buildDualAux, if_neg h, List.nil_append]
      exact List.Forall₂.cons (pairOk_unit seg) (ih seg.original_end_time)

theorem insertByKey_map (key : α → ℚ) (g : α → α) (hk : ∀ a, key (g a) = key a) (a : α) :
    ∀ l : List α, insertByKey key (g a) (l.map g) = (insertByKey key a l).map g := by
  intro l
  induction l with
  | nil => rfl
  | cons b t ih =>
    simp only [List.map_cons, insertByKey, hk]
    by_cases h : key a ≤ key b
    · rw [if_pos h, if_pos h]
      simp
    · rw [if_neg h, if_neg h]
      simp only [List.map_cons, ih]

theorem sortByKey_map (key : α → ℚ) (g : α → α) (hk : ∀ a, key (g a) = key a) :
    ∀ l : List α, sortByKey key (l.map g) = (sortByKey key l).map g := by
  intro l
  induction l with
  | nil => rfl
  | cons a t ih =>
    simp only [List.map_cons, sortByKey, ih, insertByKey_map key g hk]

theorem buildDualAux_setFlag (d cd : ℚ) (f : CamSegment → Bool) :
    ∀ (segs : List CamSegment) (p : ℚ),
      buildDualAux d cd p (segs.map (setFlag f)) = buildDualAux d cd p segs := by
  intro segs
  induction segs with
  | nil => intro p; rfl
  | cons seg rest ih =>
    intro p
    simp only [List.map_cons, buildDualAux, setFlag, ih, screenEditEntry]

/-! ## Claim theorems -/

/-- Claim C1: for every original duration and every sorted, pairwise
non-overlapping list of replacement units (each carrying its original
window and the actual duration of its replacement clip), the
concatenation list built by `VideoComposer.compose` has total nominal
duration `originalDuration + Σ (newDuration − window length)`: the sum
of emitted gap lengths plus the sum of replacement durations equals the
original duration plus the total drift. -/
theorem splice_total_duration (total : ℚ) (segs : List ProcessedSegment)
    (h : chainOK total 0 segs) :
    planDuration (buildPlan total segs) = total + totalDrift segs := by
  cases segs with
  | nil =>
    simp [buildPlan, planDuration, ClipRef.nominalDuration, totalDrift]
  | cons seg rest =>
    have hs : sortByKey ProcessedSegment.start_time (seg :: rest) = seg :: rest :=
      sortByKey_of_chain _ _ (chainOK_starts total (seg :: rest) 0 h)
    have hd := buildPlanAux_duration total (seg :: rest) 0 le_rfl h
    simp only [buildPlan, hs, hd]
    ring

/-- Witness for C1 at the spec's scenario: original duration 10, one
unit replacing [3, 6) with a 4-second clip; the plan's total nominal
duration is 10 + 1 = 11. -/
theorem splice_total_duration_witness :
    chainOK 10 0 [(⟨3, 7, some 6, true⟩ : ProcessedSegment)] ∧
    planDuration (buildPlan 10 [(⟨3, 7, some 6, true⟩ : ProcessedSegment)]) =
      10 + totalDrift [(⟨3, 7, some 6, true⟩ : ProcessedSegment)] :=
  ⟨by norm_num [chainOK, windowEnd],
   splice_total_duration 10 _ (by norm_num [chainOK, windowEnd])⟩

/-- Claim C2: the splicer walks the units in order with a cursor
starting at 0: when a unit's start exceeds the cursor it emits the
pass-through `[cursor, start)`, then the unit's replacement clip, and
then advances the cursor to the unit's original end (not to
`start + newDuration`); and on original duration 10 with one unit
replacing [3, 6) by a 4-second clip the plan is exactly
`[PassThrough(0,3), Replacement(4), PassThrough(6,10)]`. -/
theorem splice_step :
    (∀ (total c : ℚ) (seg : ProcessedSegment) (rest : List ProcessedSegment) (oe : ℚ),
      c < seg.start_time → seg.original_end_time = some oe → oe ≠ 0 →
      buildPlanAux total c (seg :: rest) =
        ClipRef.passThrough c seg.start_time ::
        ClipRef.replacement (seg.end_time - seg.start_time) ::
        buildPlanAux total oe rest) ∧
    buildPlan 10 [(⟨3, 7, some 6, true⟩ : ProcessedSegment)] =
      [ClipRef.passThrough 0 3, ClipRef.replacement 4, ClipRef.passThrough 6 10] := by
  constructor
  · intro total c seg rest oe h1 h2 h3
    rw [buildPlanAux, if_pos h1]
    simp [resumeFrom, h2, h3]
  · norm_num [buildPlan, buildPlanAux, sortByKey, insertByKey, resumeFrom]

/-- Witness for C2's universally quantified part: with cursor 0 and a
unit starting at 3 with original window end 6, the gap [0, 3) is
emitted, then the replacement, and the walk resumes from 6. -/
theorem splice_step_witness :
    (0 : ℚ) < 3 ∧ (6 : ℚ) ≠ 0 ∧
    buildPlanAux 10 0 [(⟨3, 7, some 6, true⟩ : ProcessedSegment)] =
      ClipRef.passThrough 0 3 :: ClipRef.replacement (7 - 3) :: buildPlanAux 10 6 [] :=
  ⟨by norm_num, by norm_num,
   splice_step.1 10 0 _ [] 6 (by norm_num) rfl (by norm_num)⟩

/-- Claim C3 counterexample: for the overlapping units covering [0, 2)
and [1, 3) (each replaced by a 2-second clip, on a 5-second original),
`VideoComposer.compose` silently produces a composition plan — both
replacement clips followed by the tail extract — instead of failing:
the code performs no sorted/non-overlap validation and no
`InvalidTimelineError` (or any timeline error type) exists anywhere in
the repository. -/
theorem compose_overlap_counterexample :
    buildPlan 5 [(⟨0, 2, some 2, true⟩ : ProcessedSegment),
                 (⟨1, 3, some 3, true⟩ : ProcessedSegment)] =
      [ClipRef.replacement 2, ClipRef.replacement 2, ClipRef.passThrough 3 5] := by
  norm_num [buildPlan, buildPlanAux, sortByKey, insertByKey, resumeFrom]

/-- Claim C3 amended: the composer validates nothing before composing;
it sorts the segments itself and, for any pair of overlapping units (the
second starting before the first's resume point), it emits both
replacement clips back-to-back with no gap between them and returns a
normal composition plan — no error is ever raised for overlap. -/
theorem compose_overlap_amended (total : ℚ) (s1 s2 : ProcessedSegment)
    (h1 : s1.start_time ≤ s2.start_time) (h2 : s2.start_time < resumeFrom s1) :
    buildPlan total [s1, s2] =
      (if 0 < s1.start_time then [ClipRef.passThrough 0 s1.start_time] else []) ++
      ClipRef.replacement (s1.end_time - s1.start_time) ::
      ClipRef.replacement (s2.end_time - s2.start_time) ::
      (if resumeFrom s2 < total then [ClipRef.passThrough (resumeFrom s2) total] else []) := by
  have hsort : sortByKey ProcessedSegment.start_time [s1, s2] = [s1, s2] := by
    simp [sortByKey, insertByKey, h1]
  simp only [buildPlan, hsort, buildPlanAux]
  rw [if_neg (not_lt.mpr h2.le)]
  simp

/-- Witness for C3's amended theorem at the [0, 2) / [1, 3) overlap on
a 5-second original. -/
theorem compose_overlap_amended_witness :
    (0 : ℚ) ≤ 1 ∧
    (1 : ℚ) < resumeFrom (⟨0, 2, some 2, true⟩ : ProcessedSegment) ∧
    buildPlan 5 [(⟨0, 2, some 2, true⟩ : ProcessedSegment),
                 (⟨1, 3, some 3, true⟩ : ProcessedSegment)] =
      (if (0 : ℚ) < 0 then [ClipRef.passThrough 0 0] else []) ++
      ClipRef.replacement (2 - 0) ::
      ClipRef.replacement (3 - 1) ::
      (if resumeFrom (⟨1, 3, some 3, true⟩ : ProcessedSegment) < 5 then
        [ClipRef.passThrough (resumeFrom (⟨1, 3, some 3, true⟩ : ProcessedSegment)) 5]
      else []) :=
  ⟨by norm_num, by norm_num [resumeFrom],
   compose_overlap_amended 5 _ _ (by norm_num) (by norm_num [resumeFrom])⟩

/-- Claim C4: for every dual-track input (one original duration plus a
unit list), the dual-recording synchronization produces camera and
screen concatenation lists with the same number of entries in the same
order, and every corresponding pair of entries has nominal durations
within the code's 0.1-second threshold — exactly equal whenever the
screen entry is a time-adjusted extract (gap pairs are identical
extracts, hence also exactly equal). -/
theorem dual_plan_aligned (d : ℚ) (segs : List CamSegment) :
    (buildDualPlan d d segs).1.length = (buildDualPlan d d segs).2.length ∧
    List.Forall₂ pairOk (buildDualPlan d d segs).1 (buildDualPlan d d segs).2 :=
  ⟨(buildDualAux_forall₂ d (sortByKey CamSegment.start_time segs) 0).length_eq,
   buildDualAux_forall₂ d (sortByKey CamSegment.start_time segs) 0⟩

/-- Claim C5: in the dual-recording walk, a unit whose drift
(`new_duration − orig_duration`) has absolute value at most 0.1 gets a
plain pass-through of its original window on the screen track, and a
unit whose absolute drift exceeds 0.1 gets the original window
time-stretched to exactly the camera replacement's new duration; the
third conjunct places `screenEditEntry` (and the camera `Replacement`)
at the unit's position in the two plans. -/
theorem dual_screen_entry :
    (∀ seg : CamSegment,
      |(seg.end_time - seg.start_time) - (seg.original_end_time - seg.start_time)| ≤ 1/10 →
      screenEditEntry seg = ClipRef.passThrough seg.start_time seg.original_end_time) ∧
    (∀ seg : CamSegment,
      1/10 < |(seg.end_time - seg.start_time) - (seg.original_end_time - seg.start_time)| →
      screenEditEntry seg =
        ClipRef.timeAdjusted seg.start_time seg.original_end_time
          (seg.end_time - seg.start_time)) ∧
    (∀ (d cd p : ℚ) (seg : CamSegment) (rest : List CamSegment),
      (buildDualAux d cd p (seg :: rest)).2 =
        (if p < seg.start_time then [ClipRef.passThrough p seg.start_time] else []) ++
        screenEditEntry seg :: (buildDualAux d cd seg.original_end_time rest).2 ∧
      (buildDualAux d cd p (seg :: rest)).1 =
        (if p < seg.start_time then [ClipRef.passThrough p seg.start_time] else []) ++
        ClipRef.replacement (seg.end_time - seg.start_time) ::
          (buildDualAux d cd seg.original_end_time rest).1) := by
  refine ⟨?_, ?_, ?_⟩
  · intro seg h
    rw [screenEditEntry, if_neg (not_lt.mpr h)]
  · intro seg h
    rw [screenEditEntry, if_pos h]
  · intro d cd p seg rest
    exact ⟨rfl, rfl⟩

/-- Witness for C5: a drift of 0.05 s (clip 2.05 s over a 2 s window)
keeps the plain pass-through; a drift of 0.8 s (clip 2.8 s over a 2 s
window) becomes a time-adjusted extract targeting 2.8 s. -/
theorem dual_screen_entry_witness :
    |((41/20 : ℚ) - 0) - ((2 : ℚ) - 0)| ≤ 1/10 ∧
    screenEditEntry (⟨0, 41/20, 2, true⟩ : CamSegment) = ClipRef.passThrough 0 2 ∧
    (1/10 : ℚ) < |((14/5 : ℚ) - 0) - ((2 : ℚ) - 0)| ∧
    screenEditEntry (⟨0, 14/5, 2, true⟩ : CamSegment) =
      ClipRef.timeAdjusted 0 2 (14/5 - 0) :=
  ⟨by norm_num [abs_le], dual_screen_entry.1 _ (by norm_num [abs_le]),
   by norm_num [lt_abs], dual_screen_entry.2.1 _ (by norm_num [lt_abs])⟩

/-- Claim C6 counterexample: a dual-track input whose only unit's
replacement clip is missing (`clipExists = false`) still yields the
full, normal pair of concatenation lists — composition does not fail
and no degraded path is taken; no `MissingReplacementMediaError` and no
fallback policy flag exist anywhere in the repository. -/
theorem dual_missing_media_counterexample :
    buildDualPlan 10 10 [(⟨3, 7, 6, false⟩ : CamSegment)] =
      ([ClipRef.passThrough 0 3, ClipRef.replacement 4, ClipRef.passThrough 6 10],
       [ClipRef.passThrough 0 3, ClipRef.timeAdjusted 3 6 4, ClipRef.passThrough 6 10]) := by
  norm_num [buildDualPlan, buildDualAux, sortByKey, insertByKey, screenEditEntry]

/-- Claim C6 amended: dual-track composition never inspects whether a
unit's replacement clip exists or is readable — the plans it builds are
identical for every assignment of on-disk existence to the clips (a
missing file can only surface later, inside the Media-Toolkit
concatenation call, as a generic ffmpeg error). -/
theorem dual_ignores_media_existence (d cd : ℚ) (f : CamSegment → Bool)
    (segs : List CamSegment) :
    buildDualPlan d cd (segs.map (setFlag f)) = buildDualPlan d cd segs := by
  unfold buildDualPlan
  rw [sortByKey_map CamSegment.start_time (setFlag f) (fun a => rfl), buildDualAux_setFlag]

/-- Claim C7 counterexample: with the screen track reporting 24 fps and
the camera track reporting 1000 fps — a value outside [15, 60] — the
compositor's target stays 24 fps: no clamping to 30 fps happens, because
only the screen track's reported rate is consulted. -/
theorem fps_counterexample :
    reconcileFps 24 1000 = 24 ∧ reconcileFps 24 1000 ≠ 30 ∧
    ¬((15 : ℚ) ≤ 1000 ∧ (1000 : ℚ) ≤ 60) := by
  norm_num [reconcileFps]

/-- Claim C7 amended: the clamp decision reads only the screen track's
reported frame rate (the camera's is probed but ignored): a falsy 0 is
first replaced by 30; a screen rate outside [15, 60] forces the target
to 30 for both tracks; a screen rate inside [15, 60] is used as the
target for both tracks unchanged. -/
theorem fps_amended :
    (∀ s c c' : ℚ, reconcileFps s c = reconcileFps s c') ∧
    (∀ s c : ℚ, s ≠ 0 → 15 ≤ s → s ≤ 60 → reconcileFps s c = s) ∧
    (∀ s c : ℚ, s ≠ 0 → (s < 15 ∨ 60 < s) → reconcileFps s c = 30) ∧
    (∀ c : ℚ, reconcileFps 0 c = 30) := by
  refine ⟨fun s c c' => rfl, ?_, ?_, ?_⟩
  · intro s c hs h15 h60
    rw [reconcileFps]
    simp only [if_neg hs, if_neg (not_lt.mpr h60), if_neg (not_lt.mpr h15)]
  · intro s c hs hout
    rw [reconcileFps]
    simp only [if_neg hs]
    rcases hout with h | h
    · rw [if_neg (not_lt.mpr (le_trans h.le (by norm_num))), if_pos h]
    · rw [if_pos h]
  · intro c
    norm_num [reconcileFps]

/-- Witness for C7's amended theorem: an in-range screen rate of 24 is
kept; an out-of-range screen rate of 1000 is clamped to 30. -/
theorem fps_amended_witness :
    (24 : ℚ) ≠ 0 ∧ (15 : ℚ) ≤ 24 ∧ (24 : ℚ) ≤ 60 ∧ reconcileFps 24 7 = 24 ∧
    (1000 : ℚ) ≠ 0 ∧ ((1000 : ℚ) < 15 ∨ (60 : ℚ) < 1000) ∧ reconcileFps 1000 7 = 30 :=
  ⟨by norm_num, by norm_num, by norm_num,
   fps_amended.2.1 24 7 (by norm_num) (by norm_num) (by norm_num),
   by norm_num, by norm_num,
   fps_amended.2.2.1 1000 7 (by norm_num) (by norm_num)⟩

/-- Claim C8: every entry of a composition plan built from a
well-formed unit list (windows in bounds, clips of positive duration)
has strictly positive nominal duration; in particular a unit whose
original window ends exactly at the original duration produces no
trailing pass-through, and two adjacent units produce no zero-length
gap entry between them (the two concrete conjuncts). -/
theorem splice_entries_positive :
    (∀ (total : ℚ) (segs : List ProcessedSegment), 0 < total → chainOK total 0 segs →
      (∀ s ∈ segs, s.start_time < s.end_time) →
      ∀ e ∈ buildPlan total segs, 0 < e.nominalDuration) ∧
    buildPlan 10 [(⟨3, 7, some 10, true⟩ : ProcessedSegment)] =
      [ClipRef.passThrough 0 3, ClipRef.replacement 4] ∧
    buildPlan 5 [(⟨1, 5/2, some 2, true⟩ : ProcessedSegment),
                 (⟨2, 5/2, some 3, true⟩ : ProcessedSegment)] =
      [ClipRef.passThrough 0 1, ClipRef.replacement (3/2), ClipRef.replacement (1/2),
       ClipRef.passThrough 3 5] := by
  refine ⟨?_, ?_, ?_⟩
  · intro total segs htotal hchain hpos e he
    cases segs with
    | nil =>
      simp only [buildPlan, List.mem_singleton] at he
      subst he
      simpa [ClipRef.nominalDuration] using htotal
    | cons seg rest =>
      have hs : sortByKey ProcessedSegment.start_time (seg :: rest) = seg :: rest :=
        sortByKey_of_chain _ _ (chainOK_starts total (seg :: rest) 0 hchain)
      simp only [buildPlan, hs] at he
      exact buildPlanAux_pos total (seg :: rest) 0 le_rfl hchain hpos e he
  · norm_num [buildPlan, buildPlanAux, sortByKey, insertByKey, resumeFrom]
  · norm_num [buildPlan, buildPlanAux, sortByKey, insertByKey, resumeFrom]

/-- Witness for C8's universally quantified part, on the single-unit
scenario (window [3, 6), 4-second clip, 10-second original): the first
emitted entry has positive nominal duration. -/
theorem splice_entries_positive_witness :
    (0 : ℚ) < 10 ∧
    chainOK 10 0 [(⟨3, 7, some 6, true⟩ : ProcessedSegment)] ∧
    0 < (ClipRef.passThrough (0 : ℚ) 3).nominalDuration :=
  ⟨by norm_num, by norm_num [chainOK, windowEnd],
   splice_entries_positive.1 10 [(⟨3, 7, some 6, true⟩ : ProcessedSegment)]
     (by norm_num) (by norm_num [chainOK, windowEnd])
     (by intro s hs; rw [List.mem_singleton] at hs; subst hs; norm_num)
     (ClipRef.passThrough 0 3)
     (by norm_num [buildPlan, buildPlanAux, sortByKey, insertByKey, resumeFrom])⟩

/-- Claim C9 counterexample: a NaN measured loudness is non-finite, yet
the clamp passes it through unchanged — `math.isinf` is false for NaN
and every comparison with NaN is false — so the target is neither the
default -23 LUFS nor inside [-70, -5]. -/
theorem loudness_nan_counterexample :
    clampLoudness FloatVal.nan = FloatVal.nan ∧
    clampLoudness FloatVal.nan ≠ FloatVal.finite (-23) ∧
    ¬ inLUFSRange (clampLoudness FloatVal.nan) := by
  refine ⟨rfl, fun h => FloatVal.noConfusion h, fun h => h⟩

/-- Claim C9 amended: for every measured loudness other than NaN the
clamp never rejects the input and lands in [-70, -5] LUFS: an infinite
value (either sign) or a finite value below -70 becomes -23.0, a finite
value above -5 becomes -5.0, and any other finite value is used
unchanged; only NaN escapes the clamp (it is passed through verbatim).
-/
theorem loudness_clamp_amended :
    (∀ q : ℚ, clampLoudness (FloatVal.finite q) =
      FloatVal.finite (if q < -70 then -23 else if -5 < q then -5 else q)) ∧
    clampLoudness FloatVal.posInf = FloatVal.finite (-23) ∧
    clampLoudness FloatVal.negInf = FloatVal.finite (-23) ∧
    (∀ L : FloatVal, L ≠ FloatVal.nan → inLUFSRange (clampLoudness L)) := by
  have hfin : ∀ q : ℚ, clampLoudness (FloatVal.finite q) =
      FloatVal.finite (if q < -70 then -23 else if -5 < q then -5 else q) := by
    intro q
    rw [clampLoudness]
    simp only [FloatVal.isinf, FloatVal.lt, FloatVal.gt, Bool.false_or,
      decide_eq_true_eq]
    by_cases h70 : q < -70
    · simp [h70]
    · by_cases h5 : -5 < q
      · simp [h70, h5]
      · simp [h70, h5]
  refine ⟨hfin, rfl, rfl, ?_⟩
  intro L hL
  cases L with
  | nan => exact absurd rfl hL
  | posInf => exact ⟨by norm_num, by norm_num⟩
  | negInf => exact ⟨by norm_num, by norm_num⟩
  | finite q =>
    rw [hfin q]
    by_cases h70 : q < -70
    · simp only [if_pos h70]
      exact ⟨by norm_num, by norm_num⟩
    · by_cases h5 : -5 < q
      · simp only [if_neg h70, if_pos h5]
        exact ⟨by norm_num, by norm_num⟩
      · simp only [if_neg h70, if_neg h5]
        exact ⟨not_lt.mp h70, not_lt.mp h5⟩

/-- Witness for C9's amended theorem: a measured loudness of -100 LUFS
(finite, hence not NaN) is clamped into range (to -23). -/
theorem loudness_clamp_amended_witness :
    FloatVal.finite (-100) ≠ FloatVal.nan ∧
    inLUFSRange (clampLoudness (FloatVal.finite (-100))) ∧
    clampLoudness (FloatVal.finite (-100)) = FloatVal.finite (-23) :=
  ⟨fun h => FloatVal.noConfusion h,
   loudness_clamp_amended.2.2.2 (FloatVal.finite (-100)) (fun h => FloatVal.noConfusion h),
   by have h := loudness_clamp_amended.1 (-100); norm_num at h; exact h⟩

/-- Claim C10: `extract_segment` raises `ValueError` — before issuing
any ffmpeg call — exactly when `end_time ≤ start_time`; when
`end_time > start_time` it issues the ffmpeg call for
`[start_time, start_time + duration)` and the validation error is not
raised. -/
theorem extract_segment_validation (start_time end_time : ℚ) (reencode : Bool) :
    (end_time ≤ start_time →
      extract_segment start_time end_time reencode = .error .valueError) ∧
    (start_time < end_time →
      extract_segment start_time end_time reencode =
        .ok ⟨start_time, end_time - start_time, reencode⟩) := by
  constructor
  · intro h
    rw [extract_segment]
    simp only [if_pos (sub_nonpos.mpr h)]
  · intro h
    rw [extract_segment]
    simp only [if_neg (not_le.mpr (sub_pos.mpr h))]

/-- Witness for C10: an empty range [5, 5) is rejected with
`ValueError`; the range [3, 5) is extracted (ffmpeg call with start 3,
duration 2). -/
theorem extract_segment_validation_witness :
    (5 : ℚ) ≤ 5 ∧ extract_segment 5 5 true = .error .valueError ∧
    (3 : ℚ) < 5 ∧ extract_segment 3 5 true = .ok ⟨3, 5 - 3, true⟩ :=
  ⟨by norm_num, (extract_segment_validation 5 5 true).1 (by norm_num),
   by norm_num, (extract_segment_validation 3 5 true).2 (by norm_num)⟩
